import Mathlib

/-!
Verification of the SVG-to-PPTX parsing pipeline (`src/svg_to_pptx/parser.py`)
against its natural-language specification.

The Python source is shallowly embedded: numeric values (Python floats holding
parsed decimal literals and fixed conversion factors) are modelled as rationals,
Python strings as Lean strings (lists of characters), `None`-able values as
`Option`, and operations that can raise `ValueError` as `Except String`.
Regular-expression matching from the source is modelled by direct character-list
scanners implementing the same match semantics.
-/

set_option maxRecDepth 20000

unseal Rat.add Rat.mul Rat.inv Rat.sub

namespace SvgToPptx

/-- Python `str.isspace`-style whitespace test used by `str.strip()` (ASCII
whitespace; exotic unicode whitespace is irrelevant to the inputs at hand). -/
def isPySpace (c : Char) : Bool :=
  c == ' ' || c == '\t' || c == '\n' || c == '\r' || c == '\x0b' || c == '\x0c'

/-- Character-list core of Python `str.strip()`. -/
def stripChars (cs : List Char) : List Char :=
  ((cs.dropWhile isPySpace).reverse.dropWhile isPySpace).reverse

/-- Python `str.strip()`. -/
def pyStrip (s : String) : String := ⟨stripChars s.data⟩

/-- Python `str.lower()` (ASCII case folding suffices for the inputs used). -/
def pyLower (s : String) : String := ⟨s.data.map Char.toLower⟩

/-- Value of a list of decimal digit characters. -/
def digitsToNat (cs : List Char) : Nat :=
  cs.foldl (fun a c => a * 10 + (c.toNat - '0'.toNat)) 0

/-- `(10 : ℚ) ^ n`, the scale factor of a fractional part of `n` digits. -/
def pow10 (n : Nat) : ℚ := (10 : ℚ) ^ n

/-- Exact value of a decimal literal split into integer digits and fractional
digits; Python's `float()` of such a literal is modelled exactly. -/
def decValue (ids fds : List Char) : ℚ :=
  (digitsToNat ids : ℚ) + (digitsToNat fds : ℚ) / pow10 fds.length

/-- Value of a signed decimal numeral token (optional `-`, digits, optional
`.digits`), such as the `value` group of `_LENGTH_RE` or a path data number. -/
def numValueChars (cs : List Char) : ℚ :=
  let p := match cs with
    | '-' :: r => (true, r)
    | _ => (false, cs)
  let ids := p.2.takeWhile Char.isDigit
  let rest := p.2.drop ids.length
  let fds := match rest with
    | '.' :: r2 => r2.takeWhile Char.isDigit
    | _ => ([] : List Char)
  if p.1 then -(decValue ids fds) else decValue ids fds

/-- Unit-suffix character class of `_LENGTH_RE`: `[a-z%]` with `re.IGNORECASE`. -/
def isUnitChar (c : Char) : Bool := c.isAlpha || c == '%'

/-- Full match of `_LENGTH_RE` (`(-?\d+(?:\.\d+)?)([a-z%]*)` with `fullmatch`):
returns the `value` group and the `unit` group, or `none` when the whole string
does not match. -/
def lengthMatch (cs : List Char) : Option (List Char × List Char) :=
  let p := match cs with
    | '-' :: r => (['-'], r)
    | _ => (([] : List Char), cs)
  let ids := p.2.takeWhile Char.isDigit
  if ids = [] then none
  else
    match p.2.drop ids.length with
    | '.' :: r2 =>
      let fds := r2.takeWhile Char.isDigit
      if fds = [] then none
      else
        let unitPart := r2.drop fds.length
        if unitPart.all isUnitChar then some (p.1 ++ ids ++ '.' :: fds, unitPart)
        else none
    | other => if other.all isUnitChar then some (p.1 ++ ids, other) else none

/-- Model of the Python builtin `float()` applied to a string: `none` when the
call would raise `ValueError`.  Covers signed decimal literals with optional
fractional part and optional decimal exponent; `inf`/`nan` (not representable
in ℚ) and underscore grouping are outside the inputs this program meets. -/
def pyFloat (s : String) : Option ℚ :=
  let cs := stripChars s.data
  let p := match cs with
    | '-' :: r => (true, r)
    | '+' :: r => (false, r)
    | _ => (false, cs)
  let ids := p.2.takeWhile Char.isDigit
  let rest1 := p.2.drop ids.length
  let q := match rest1 with
    | '.' :: r2 => (r2.takeWhile Char.isDigit, r2.drop (r2.takeWhile Char.isDigit).length)
    | _ => (([] : List Char), rest1)
  if ids = [] ∧ q.1 = [] then none
  else
    let mant := decValue ids q.1
    match q.2 with
    | [] => some (if p.1 then -mant else mant)
    | e :: r3 =>
      if e == 'e' || e == 'E' then
        let w := match r3 with
          | '-' :: r => (true, r)
          | '+' :: r => (false, r)
          | _ => (false, r3)
        let eds := w.2.takeWhile Char.isDigit
        if eds = [] then none
        else if w.2.drop eds.length = [] then
          let m2 := if w.1 then mant / pow10 (digitsToNat eds) else mant * pow10 (digitsToNat eds)
          some (if p.1 then -m2 else m2)
        else none
      else none

/-- Lines 52-66 of `parser.py`: scale the matched number by its lowercased
unit's factor; unknown units pass the number through unchanged. -/
def applyUnit (number : ℚ) (unit : String) : ℚ :=
  if unit = "" ∨ unit = "px" then number
  else if unit = "pt" then number * (13333 / 10000 : ℚ)
  else if unit = "cm" then number * (377953 / 10000 : ℚ)
  else if unit = "mm" then number * (377953 / 100000 : ℚ)
  else if unit = "in" then number * (96 : ℚ)
  else if unit = "%" then number
  else number

/-- `_parse_float` from `parser.py`: normalize an optional length string to a
number, falling back to `default` on absent, empty or unparseable input.
Conversion factors are the exact rationals denoted by the source literals. -/
def parseFloat (value : Option String) (d : ℚ) : ℚ :=
  match value with
  | none => d
  | some s0 =>
    let s := pyStrip s0
    if s = "" then d
    else
      match lengthMatch s.data with
      | none =>
        match pyFloat s with
        | some q => q
        | none => d
      | some m => applyUnit (numValueChars m.1) ⟨m.2.map Char.toLower⟩

/-- The `_COLOR_NAMES` dictionary as a lookup function. -/
def colorNames (k : String) : Option String :=
  if k = "black" then some "#000000"
  else if k = "white" then some "#ffffff"
  else if k = "red" then some "#ff0000"
  else if k = "green" then some "#008000"
  else if k = "blue" then some "#0000ff"
  else if k = "yellow" then some "#ffff00"
  else if k = "cyan" then some "#00ffff"
  else if k = "magenta" then some "#ff00ff"
  else if k = "none" then some "none"
  else none

/-- Accumulator pass behind `digitRuns`. -/
def digitRunsAux : List Char → List Char → List (List Char)
  | [], cur => if cur = [] then [] else [cur.reverse]
  | c :: rest, cur =>
    if c.isDigit then digitRunsAux rest (c :: cur)
    else if cur = [] then digitRunsAux rest []
    else cur.reverse :: digitRunsAux rest []

/-- `re.findall(r"\d+", s)`: the maximal runs of decimal digits, in order. -/
def digitRuns (cs : List Char) : List (List Char) := digitRunsAux cs []

/-- Lowercase hexadecimal digit. -/
def hexDigitChar (n : Nat) : Char :=
  if n < 10 then Char.ofNat (48 + n) else Char.ofNat (87 + n)

/-- Structural core of `toHexRev`; the fuel only bounds the recursion depth
(`n + 1` steps always suffice since the argument at least halves). -/
def toHexRevFuel : Nat → Nat → List Char
  | 0, _ => []
  | fuel + 1, n =>
    if n < 16 then [hexDigitChar n]
    else hexDigitChar (n % 16) :: toHexRevFuel fuel (n / 16)

/-- Hexadecimal digits of `n`, least significant first. -/
def toHexRev (n : Nat) : List Char := toHexRevFuel (n + 1) n

/-- Python `f"{n:02x}"`: lowercase hex, zero-padded to width 2, overflowing the
width for values ≥ 256 exactly as the source does (no clamping). -/
def hex2 (n : Nat) : List Char :=
  let h := (toHexRev n).reverse
  if h.length = 1 then '0' :: h else h

/-- `_parse_color` from `parser.py`: normalize an optional color string to a
canonical color, `none` meaning "no paint". -/
def parseColor (value : Option String) : Option String :=
  match value with
  | none => none
  | some s0 =>
    let s := pyStrip s0
    if s = "" then none
    else
      let normalized := (colorNames (pyLower s)).getD s
      if pyLower normalized = "none" then none
      else if normalized.data.head? = some '#' ∧ normalized.data.length = 7 then
        some (pyLower normalized)
      else if normalized.data.take 3 = ['r', 'g', 'b'] then
        let runs := digitRuns normalized.data
        if runs.length = 3 then
          some ⟨'#' :: (runs.map (fun r => hex2 (digitsToNat r))).flatten⟩
        else some normalized
      else some normalized


/-- Decidable equality for `Except`, needed to evaluate the embedded fallible
operations on concrete inputs. -/
instance {e a : Type} [DecidableEq e] [DecidableEq a] : DecidableEq (Except e a) := fun x y =>
  match x, y with
  | .ok u, .ok v =>
    if h : u = v then isTrue (by rw [h]) else isFalse (fun hh => h (Except.ok.inj hh))
  | .error u, .error v =>
    if h : u = v then isTrue (by rw [h]) else isFalse (fun hh => h (Except.error.inj hh))
  | .ok _, .error _ => isFalse (fun hh => Except.noConfusion hh)
  | .error _, .ok _ => isFalse (fun hh => Except.noConfusion hh)

/-- A `PathSegment` from `models.py`: an ordered point list plus a closed flag. -/
structure PathSegment where
  points : List (ℚ × ℚ)
  closed : Bool
deriving DecidableEq

/-- Command letters recognized by the path tokenizer (`[MmLlHhVvZz]`). -/
def isCmdChar (c : Char) : Bool :=
  c == 'M' || c == 'm' || c == 'L' || c == 'l' || c == 'H' || c == 'h' ||
  c == 'V' || c == 'v' || c == 'Z' || c == 'z'

/-- Length of the numeric token `-?\d*\.?\d+` matching at the head of `cs`
(with the regex backtracking semantics: a trailing dot without digits after it
is not consumed), or `0` when no numeric token matches here. -/
def numTokLen (cs : List Char) : Nat :=
  let p := match cs with
    | '-' :: r => (1, r)
    | _ => (0, cs)
  let ids := p.2.takeWhile Char.isDigit
  match p.2.drop ids.length with
  | '.' :: r2 =>
    let fds := r2.takeWhile Char.isDigit
    if fds = [] then (if ids = [] then 0 else p.1 + ids.length)
    else p.1 + ids.length + 1 + fds.length
  | _ => if ids = [] then 0 else p.1 + ids.length

/-- Structural core of `pathTokens`; the fuel only bounds recursion depth (the
input length always suffices, every step consuming at least one character). -/
def pathTokensFuel : Nat → List Char → List String
  | 0, _ => []
  | _, [] => []
  | fuel + 1, c :: rest =>
    if isCmdChar c then (⟨[c]⟩ : String) :: pathTokensFuel fuel rest
    else
      let k := numTokLen (c :: rest)
      if k = 0 then pathTokensFuel fuel rest
      else (⟨(c :: rest).take k⟩ : String) :: pathTokensFuel fuel ((c :: rest).drop k)

/-- `_path_tokens` from `parser.py`: scan the path data with the pattern
`([MmLlHhVvZz])|(-?\d*\.?\d+)`, yielding command letters and numeric literals
and skipping every unmatched character. -/
def pathTokens (cs : List Char) : List String := pathTokensFuel cs.length cs

/-- The mutable state of the `_parse_path` loop: output segments, cursor,
remembered subpath start, and the active command. -/
structure PathState where
  segments : List PathSegment
  cursor : ℚ × ℚ
  start : Option (ℚ × ℚ)
  command : Option String
deriving DecidableEq

/-- Apply `f` to the last element of a list (`segments[-1]` mutation). -/
def updateLast (f : PathSegment → PathSegment) : List PathSegment → List PathSegment
  | [] => []
  | [sg] => [f sg]
  | sg :: rest => sg :: updateLast f rest

/-- Lines 203-212 of `parser.py`: consume a resolved point under the active
command `c`: `M`/`m` push a fresh one-point segment, remember the subpath start
and switch the command to the matching line form; other commands append to the
last segment, synthesizing a segment from the cursor when none exists; the
cursor moves to the point. -/
def stepPoint (st : PathState) (c : String) (p : ℚ × ℚ) : PathState :=
  if c = "M" ∨ c = "m" then
    { segments := st.segments ++ [{ points := [p], closed := false }]
      cursor := p
      start := some p
      command := some (if c = "M" then "L" else "l") }
  else
    { segments :=
        if st.segments.isEmpty then [{ points := [st.cursor, p], closed := false }]
        else updateLast (fun sg => { sg with points := sg.points ++ [p] }) st.segments
      cursor := p
      start := st.start
      command := st.command }

/-- The token test of line 161 of `parser.py`: `re.fullmatch(r"[A-Za-z]", token)`. -/
def isLetterTok (t : String) : Bool :=
  match t.data with
  | [c] => c.isAlpha
  | _ => false

/-- The `while` loop of `_parse_path` (lines 159-212 of `parser.py`): a letter
token becomes the active command; a data token is interpreted under the active
command (`M`/`L` and `m`/`l` also consume the following token as `y`, defaulting
to `0.0` resp. the cursor's `y` at the end of the stream; `Z`/`z` close the last
segment, reset the cursor to the subpath start and clear the command while
consuming the current data token); a data token with no active command raises.
The fuel only bounds recursion depth: every iteration consumes at least one
token, so the token count always suffices and the fuel-exhausted case is
unreachable from `parsePath`. -/
def goPathFuel : Nat → List String → PathState → Except String (List PathSegment)
  | _, [], st => .ok st.segments
  | 0, _ :: _, st => .ok st.segments
  | fuel + 1, t :: rest, st =>
    if isLetterTok t then goPathFuel fuel rest { st with command := some t }
    else
      match st.command with
      | none => .error "Path data missing command"
      | some c =>
        if c = "M" ∨ c = "L" then
          let x := parseFloat (some t) 0
          match rest with
          | [] => .ok (stepPoint st c (x, 0)).segments
          | t2 :: r2 => goPathFuel fuel r2 (stepPoint st c (x, parseFloat (some t2) 0))
        else if c = "m" ∨ c = "l" then
          let x := st.cursor.1 + parseFloat (some t) 0
          match rest with
          | [] => .ok (stepPoint st c (x, st.cursor.2)).segments
          | t2 :: r2 =>
            goPathFuel fuel r2 (stepPoint st c (x, st.cursor.2 + parseFloat (some t2) 0))
        else if c = "H" then goPathFuel fuel rest (stepPoint st c (parseFloat (some t) 0, st.cursor.2))
        else if c = "h" then
          goPathFuel fuel rest (stepPoint st c (st.cursor.1 + parseFloat (some t) 0, st.cursor.2))
        else if c = "V" then goPathFuel fuel rest (stepPoint st c (st.cursor.1, parseFloat (some t) 0))
        else if c = "v" then
          goPathFuel fuel rest (stepPoint st c (st.cursor.1, st.cursor.2 + parseFloat (some t) 0))
        else if c = "Z" ∨ c = "z" then
          goPathFuel fuel rest
            { segments :=
                if ¬ st.segments.isEmpty ∧ st.start.isSome then
                  updateLast (fun sg => { sg with closed := true }) st.segments
                else st.segments
              cursor := match st.start with | some sp => sp | none => st.cursor
              start := st.start
              command := none }
        else goPathFuel fuel rest st

/-- The interpreter loop at its standard fuel, the token count. -/
def goPath (tokens : List String) (st : PathState) : Except String (List PathSegment) :=
  goPathFuel tokens.length tokens st

/-- `_parse_path` from `parser.py`: tokenize the `d` string and run the
interpreter loop from the origin with no active command. -/
def parsePath (d : String) : Except String (List PathSegment) :=
  goPath (pathTokens d.data) { segments := [], cursor := (0, 0), start := none, command := none }


/-- An in-memory XML element as `xml.etree.ElementTree` presents it: tag,
attribute mapping (unique keys), leading text, trailing tail text, children. -/
inductive XmlElement where
  | mk (tag : String) (attrs : List (String × String)) (text : Option String)
       (tail : Option String) (children : List XmlElement)

/-- The element's tag. -/
def XmlElement.tag : XmlElement → String
  | .mk t _ _ _ _ => t

/-- The element's attribute mapping. -/
def XmlElement.attrs : XmlElement → List (String × String)
  | .mk _ a _ _ _ => a

/-- The element's leading text node. -/
def XmlElement.text : XmlElement → Option String
  | .mk _ _ tx _ _ => tx

/-- The element's tail text node. -/
def XmlElement.tail : XmlElement → Option String
  | .mk _ _ _ tl _ => tl

/-- The element's children. -/
def XmlElement.children : XmlElement → List XmlElement
  | .mk _ _ _ _ cs => cs

mutual

/-- `element.iter()`: the element followed by all descendants, depth first. -/
def iterElems : XmlElement → List XmlElement
  | .mk t a tx tl cs => .mk t a tx tl cs :: iterElemsList cs

/-- `iterElems` over a child list, preserving order. -/
def iterElemsList : List XmlElement → List XmlElement
  | [] => []
  | c :: cs => iterElems c ++ iterElemsList cs

end

mutual

/-- `element.itertext()`: the element's text, then each child's texts followed
by the child's tail, depth first; empty/absent strings are skipped (Python
truthiness). -/
def iterText : XmlElement → List String
  | .mk _ _ tx _ cs =>
    (match tx with | some s => if s = "" then [] else [s] | none => []) ++ iterTextList cs

/-- `iterText` over a child list, yielding each child's texts then its tail. -/
def iterTextList : List XmlElement → List String
  | [] => []
  | c :: cs =>
    (iterText c ++ (match c.tail with | some s => if s = "" then [] else [s] | none => []))
      ++ iterTextList cs

end

/-- First-match lookup in an attribute mapping, `element.attrib[k]` access. -/
def assocGet (l : List (String × String)) (k : String) : Option String :=
  match l with
  | [] => none
  | kv :: rest => if kv.1 = k then some kv.2 else assocGet rest k

/-- `element.get(k, d)`: the attribute's value when present, else `d`. -/
def elemGet (e : XmlElement) (k : String) (d : Option String) : Option String :=
  match assocGet e.attrs k with
  | some v => some v
  | none => d

/-- `element.get(k, d)` with a string default. -/
def elemGetD (e : XmlElement) (k : String) (d : String) : String :=
  match assocGet e.attrs k with
  | some v => v
  | none => d

/-- Split a character list on a separator character (Python `str.split(sep)`). -/
def splitChar (sep : Char) : List Char → List (List Char)
  | [] => [[]]
  | c :: rest =>
    match splitChar sep rest with
    | [] => if c = sep then [[], []] else [[c]]
    | h :: t => if c = sep then [] :: h :: t else (c :: h) :: t

/-- Lookup in the parsed style declarations; the declaration list is kept in
source order and the last declaration for a key wins, modelling insertion into
a Python dict. -/
def pyDictGet (l : List (String × String)) (k : String) : Option String :=
  l.foldl (fun acc kv => if kv.1 = k then some kv.2 else acc) none

/-- `_merge_style` from `parser.py`: split the `style` attribute on `;`, split
each declaration containing `:` at the first `:`, trim both sides; malformed
declarations are skipped. -/
def mergeStyle (e : XmlElement) : List (String × String) :=
  match assocGet e.attrs "style" with
  | none => []
  | some sv =>
    (splitChar ';' sv.data).foldl
      (fun acc decl =>
        if decl.contains ':' then
          let key := decl.takeWhile (fun c => c != ':')
          acc ++ [(pyStrip ⟨key⟩, pyStrip ⟨decl.drop (key.length + 1)⟩)]
        else acc)
      []

/-- A resolved `Style` from `models.py`. -/
structure Style where
  fill_color : Option String := none
  stroke_color : Option String := none
  stroke_width : ℚ := 1
  opacity : ℚ := 1
deriving DecidableEq

/-- A resolved `TextStyle` from `models.py` (a `Style` plus font fields). -/
structure TextStyle where
  fill_color : Option String := none
  stroke_color : Option String := none
  stroke_width : ℚ := 1
  opacity : ℚ := 1
  font_family : Option String := none
  font_size : Option ℚ := none
deriving DecidableEq

/-- `_extract_style` from `parser.py`: each property reads the direct attribute
first and falls back to the style-block declaration; `stroke-width` is length
normalized with the base style's width (default `1.0`) as default; `opacity`
goes through the bare `float()` builtin, whose `ValueError` propagates. -/
def extractStyle (e : XmlElement) (base : Option Style) : Except String Style :=
  let inline := mergeStyle e
  let fill := elemGet e "fill" (pyDictGet inline "fill")
  let stroke := elemGet e "stroke" (pyDictGet inline "stroke")
  let strokeWidth := elemGet e "stroke-width" (pyDictGet inline "stroke-width")
  let opacity := elemGet e "opacity" (pyDictGet inline "opacity")
  match opacity with
  | some o =>
    match pyFloat o with
    | some q =>
      .ok { fill_color := parseColor fill
            stroke_color := parseColor stroke
            stroke_width := parseFloat strokeWidth (match base with | some b => b.stroke_width | none => 1)
            opacity := q }
    | none => .error ("could not convert string to float: '" ++ o ++ "'")
  | none =>
    .ok { fill_color := parseColor fill
          stroke_color := parseColor stroke
          stroke_width := parseFloat strokeWidth (match base with | some b => b.stroke_width | none => 1)
          opacity := match base with | some b => b.opacity | none => 1 }

/-- `_extract_text_style` from `parser.py`: base resolution against a default
`TextStyle()` (stroke width and opacity `1.0`) plus `font-family` and
`font-size` (the latter length normalized when truthy). -/
def extractTextStyle (e : XmlElement) : Except String TextStyle :=
  let inline := mergeStyle e
  let fontFamily := elemGet e "font-family" (pyDictGet inline "font-family")
  let fontSize := elemGet e "font-size" (pyDictGet inline "font-size")
  match extractStyle e (some { stroke_width := 1, opacity := 1 }) with
  | .error m => .error m
  | .ok b =>
    .ok { fill_color := b.fill_color
          stroke_color := b.stroke_color
          stroke_width := b.stroke_width
          opacity := b.opacity
          font_family := fontFamily
          font_size :=
            match fontSize with
            | none => none
            | some s => if s = "" then none else some (parseFloat (some s) 0) }

/-- Length of a `-?\d+(?:\.\d+)?` match at the head of `cs` (integer digits
required, fractional part only with digits), or `0` when none matches here. -/
def ptNumLen (cs : List Char) : Nat :=
  let p := match cs with
    | '-' :: r => (1, r)
    | _ => (0, cs)
  let ids := p.2.takeWhile Char.isDigit
  if ids = [] then 0
  else
    match p.2.drop ids.length with
    | '.' :: r2 =>
      let fds := r2.takeWhile Char.isDigit
      if fds = [] then p.1 + ids.length else p.1 + ids.length + 1 + fds.length
    | _ => p.1 + ids.length

/-- Length of a `num,num` pair match at the head of `cs`, or `0`. -/
def pairLen (cs : List Char) : Nat :=
  let n1 := ptNumLen cs
  if n1 = 0 then 0
  else
    match cs.drop n1 with
    | ',' :: r2 =>
      let n2 := ptNumLen r2
      if n2 = 0 then 0 else n1 + 1 + n2
    | _ => 0

/-- Structural scanner for `re.findall` over `cs` with a head-match length
function `f`: take each non-overlapping match, skip one character otherwise.
The fuel only bounds recursion depth; the input length always suffices. -/
def findAllFuel (f : List Char → Nat) : Nat → List Char → List (List Char)
  | 0, _ => []
  | _, [] => []
  | fuel + 1, c :: rest =>
    let k := f (c :: rest)
    if k = 0 then findAllFuel f fuel rest
    else (c :: rest).take k :: findAllFuel f fuel ((c :: rest).drop k)

/-- `re.findall(r"-?\d+(?:\.\d+)?,-?\d+(?:\.\d+)?", s)`. -/
def findPairs (cs : List Char) : List (List Char) := findAllFuel pairLen cs.length cs

/-- `re.findall(r"-?\d+(?:\.\d+)?", s)`. -/
def findNums (cs : List Char) : List (List Char) := findAllFuel ptNumLen cs.length cs

/-- The index loop of `_parse_points`' fallback: pair consecutive numbers,
dropping an unpaired last one (the caught `IndexError`). -/
def pairUp : List (List Char) → List (ℚ × ℚ)
  | a :: b :: rest => (parseFloat (some ⟨a⟩) 0, parseFloat (some ⟨b⟩) 0) :: pairUp rest
  | _ => []

/-- `_parse_points` from `parser.py`: find `x,y` pairs in the stripped string;
when none, fall back to pairing the individual numbers of the raw string. -/
def parsePoints (s : String) : List (ℚ × ℚ) :=
  let pts := (findPairs (stripChars s.data)).map (fun pr =>
    let xs := pr.takeWhile (fun c => c != ',')
    (parseFloat (some ⟨xs⟩) 0, parseFloat (some ⟨pr.drop (xs.length + 1)⟩) 0))
  if pts.isEmpty then pairUp (findNums s.data) else pts

/-- `ShapeType` from `models.py`. -/
inductive ShapeType where
  | rect | circle | ellipse | line | polyline | polygon | path | text
deriving DecidableEq

/-- The shape records from `models.py` as one sum type; `polyline` keeps its
stored `shape_type` discriminator (polygon or polyline) beside the flag, as the
source dataclass does. -/
inductive Shape where
  | rect (style : Style) (x y width height rx ry : ℚ)
  | circle (style : Style) (cx cy r : ℚ)
  | ellipse (style : Style) (cx cy rx ry : ℚ)
  | line (style : Style) (x1 y1 x2 y2 : ℚ)
  | polyline (shapeType : ShapeType) (style : Style) (points : List (ℚ × ℚ)) (closed : Bool)
  | path (style : Style) (segments : List PathSegment)
  | text (style : TextStyle) (content : String) (x y : ℚ)
deriving DecidableEq

/-- `_parse_rect` from `parser.py`. -/
def parseRect (e : XmlElement) : Except String Shape :=
  match extractStyle e none with
  | .error m => .error m
  | .ok style =>
    .ok (.rect style (parseFloat (assocGet e.attrs "x") 0) (parseFloat (assocGet e.attrs "y") 0)
      (parseFloat (assocGet e.attrs "width") 0) (parseFloat (assocGet e.attrs "height") 0)
      (parseFloat (assocGet e.attrs "rx") 0) (parseFloat (assocGet e.attrs "ry") 0))

/-- `_parse_circle` from `parser.py`. -/
def parseCircle (e : XmlElement) : Except String Shape :=
  match extractStyle e none with
  | .error m => .error m
  | .ok style =>
    .ok (.circle style (parseFloat (assocGet e.attrs "cx") 0) (parseFloat (assocGet e.attrs "cy") 0)
      (parseFloat (assocGet e.attrs "r") 0))

/-- `_parse_ellipse` from `parser.py`. -/
def parseEllipse (e : XmlElement) : Except String Shape :=
  match extractStyle e none with
  | .error m => .error m
  | .ok style =>
    .ok (.ellipse style (parseFloat (assocGet e.attrs "cx") 0) (parseFloat (assocGet e.attrs "cy") 0)
      (parseFloat (assocGet e.attrs "rx") 0) (parseFloat (assocGet e.attrs "ry") 0))

/-- `_parse_line` from `parser.py`. -/
def parseLine (e : XmlElement) : Except String Shape :=
  match extractStyle e none with
  | .error m => .error m
  | .ok style =>
    .ok (.line style (parseFloat (assocGet e.attrs "x1") 0) (parseFloat (assocGet e.attrs "y1") 0)
      (parseFloat (assocGet e.attrs "x2") 0) (parseFloat (assocGet e.attrs "y2") 0))

/-- `_parse_polyline` from `parser.py`, shared by `polyline` and `polygon`. -/
def parsePolylineShape (e : XmlElement) (closed : Bool) : Except String Shape :=
  match extractStyle e none with
  | .error m => .error m
  | .ok style =>
    .ok (.polyline (if closed then .polygon else .polyline) style
      (parsePoints (elemGetD e "points" "")) closed)

/-- `_parse_path_element` from `parser.py`. -/
def parsePathShape (e : XmlElement) : Except String Shape :=
  match extractStyle e none with
  | .error m => .error m
  | .ok style =>
    match parsePath (elemGetD e "d" "") with
    | .error m => .error m
    | .ok segs => .ok (.path style segs)

/-- Join strings with single spaces (`" ".join(parts)`). -/
def joinSpace : List String → String
  | [] => ""
  | h :: t => t.foldl (fun acc s => acc ++ " " ++ s) h

/-- `_parse_text` from `parser.py`: text style, all stripped non-empty text
nodes joined by single spaces, and the anchor coordinates. -/
def parseTextShape (e : XmlElement) : Except String Shape :=
  match extractTextStyle e with
  | .error m => .error m
  | .ok ts =>
    .ok (.text ts (joinSpace (((iterText e).map pyStrip).filter (fun s => s != "")))
      (parseFloat (assocGet e.attrs "x") 0) (parseFloat (assocGet e.attrs "y") 0))

/-- The `_SHAPE_PARSERS` dispatch table: `none` for unrecognized tags. -/
def parseShape (tag : String) (e : XmlElement) : Option (Except String Shape) :=
  if tag = "rect" then some (parseRect e)
  else if tag = "circle" then some (parseCircle e)
  else if tag = "ellipse" then some (parseEllipse e)
  else if tag = "line" then some (parseLine e)
  else if tag = "polyline" then some (parsePolylineShape e false)
  else if tag = "polygon" then some (parsePolylineShape e true)
  else if tag = "path" then some (parsePathShape e)
  else if tag = "text" then some (parseTextShape e)
  else none

/-- `element.tag.split("}")[-1]`: the tag after the last `}` (namespace strip). -/
def localTag (s : String) : String :=
  ⟨s.data.foldl (fun acc c => if c = '}' then [] else acc ++ [c]) []⟩

/-- The traversal loop of `parse_svg`: for each element in document order whose
local tag is recognized, run its extractor; an extractor failure aborts the
walk wrapped as a single error naming the tag. -/
def walkShapes : List XmlElement → Except String (List Shape)
  | [] => .ok []
  | e :: rest =>
    match parseShape (localTag e.tag) e with
    | none => walkShapes rest
    | some (.error msg) =>
      .error ("Unable to parse element '" ++ localTag e.tag ++ "': " ++ msg)
    | some (.ok s) =>
      match walkShapes rest with
      | .error m => .error m
      | .ok shapes => .ok (s :: shapes)

/-- The `Document` record from `models.py`. -/
structure SvgDocument where
  width : Option ℚ
  height : Option ℚ
  shapes : List Shape
deriving DecidableEq

/-- `parse_svg` from `parser.py`, from the parsed XML root on: canvas width and
height when the attributes are present and truthy, then the document walk. -/
def parseSvg (root : XmlElement) : Except String SvgDocument :=
  let width := match assocGet root.attrs "width" with
    | some w => if w = "" then none else some (parseFloat (some w) 0)
    | none => none
  let height := match assocGet root.attrs "height" with
    | some hv => if hv = "" then none else some (parseFloat (some hv) 0)
    | none => none
  match walkShapes (iterElems root) with
  | .error m => .error m
  | .ok shapes => .ok { width := width, height := height, shapes := shapes }

/-- The source tag of a produced shape (`shape.shape_type.value`); the
`polyline` variant reads its stored discriminator. -/
def shapeTypeName : ShapeType → String
  | .rect => "rect"
  | .circle => "circle"
  | .ellipse => "ellipse"
  | .line => "line"
  | .polyline => "polyline"
  | .polygon => "polygon"
  | .path => "path"
  | .text => "text"

/-- The tag a shape answers to in the output order statement. -/
def shapeTag : Shape → String
  | .rect .. => "rect"
  | .circle .. => "circle"
  | .ellipse .. => "ellipse"
  | .line .. => "line"
  | .polyline st _ _ _ => shapeTypeName st
  | .path .. => "path"
  | .text .. => "text"

/-- The tags with a `_SHAPE_PARSERS` entry. -/
def recognizedTag (t : String) : Bool :=
  t == "rect" || t == "circle" || t == "ellipse" || t == "line" ||
  t == "polyline" || t == "polygon" || t == "path" || t == "text"

/-- Concrete element for exercising the style resolver: every property carries
both a direct attribute and a conflicting style-block declaration. -/
def c5elem : XmlElement :=
  .mk "rect"
    [("fill", "#111111"), ("stroke", "#333333"), ("stroke-width", "4"), ("opacity", "0.9"),
     ("style", "fill:#222222;stroke:#444444;stroke-width:8;opacity:0.1")]
    none none []

/-- Concrete rect whose `opacity` attribute is not a valid float. -/
def c1rect : XmlElement := .mk "rect" [("opacity", "50%")] none none []

/-- Concrete document whose only child is that rect: no path element at all. -/
def c1rectDoc : XmlElement := .mk "svg" [] none none [c1rect]

/-- Concrete document whose path child has unparseable path data. -/
def c1pathDoc : XmlElement := .mk "svg" [] none none [.mk "path" [("d", "5")] none none []]

/-- Concrete document with a rect, a circle and a path, in that order. -/
def c7doc : XmlElement :=
  .mk "svg" [] none none
    [.mk "rect" [] none none [], .mk "circle" [] none none [],
     .mk "path" [("d", "M0,0 L1,1")] none none []]

/-- The document value `c7doc` parses to. -/
def c7parsed : SvgDocument :=
  { width := none, height := none,
    shapes :=
      [.rect { fill_color := none, stroke_color := none, stroke_width := 1, opacity := 1 } 0 0 0 0 0 0,
       .circle { fill_color := none, stroke_color := none, stroke_width := 1, opacity := 1 } 0 0 0,
       .path { fill_color := none, stroke_color := none, stroke_width := 1, opacity := 1 }
         [{ points := [(0, 0), (1, 1)], closed := false }]] }

/-- The last point of the last segment, the observable a data step updates. -/
def lastPoint (segs : List PathSegment) : Option (ℚ × ℚ) :=
  match segs.getLast? with
  | none => none
  | some sg => sg.points.getLast?

/-- When the strict length pattern matches, `parseFloat` is the matched
number scaled by the lowercased unit. -/
theorem parseFloat_match (s : String) (t u : List Char) (d : ℚ)
    (h : lengthMatch (pyStrip s).data = some (t, u)) :
    parseFloat (some s) d = applyUnit (numValueChars t) ⟨u.map Char.toLower⟩ := by
  have he : ¬ (pyStrip s = "") := by
    intro he
    rw [he] at h
    rw [show lengthMatch ("" : String).data = none from rfl] at h
    exact Option.noConfusion h
  simp only [parseFloat, if_neg he, h]

/-- For every supported unit the conversion factor is multiplicative, so
doubling the number doubles the result. -/
theorem applyUnit_double (n : ℚ) (unit : String)
    (hu : unit ∈ (["", "px", "pt", "cm", "mm", "in", "%"] : List String)) :
    applyUnit (2 * n) unit = 2 * applyUnit n unit := by
  simp only [List.mem_cons, List.not_mem_nil, or_false] at hu
  rcases hu with h | h | h | h | h | h | h <;> subst h <;> simp [applyUnit] <;> ring

/-- C4: for every supported unit suffix `u` (px, pt, cm, mm, in, %, or none)
and every numeric value, `parse_length` is linear in the numeric part: parsing
a string whose numeral denotes twice the value of another string's numeral,
with the same unit suffix, yields twice the parsed length. -/
theorem C4_parse_length_linear (s s2 : String) (t t2 u : List Char) (d d2 : ℚ)
    (hu : (⟨u.map Char.toLower⟩ : String) ∈ (["", "px", "pt", "cm", "mm", "in", "%"] : List String))
    (h1 : lengthMatch (pyStrip s).data = some (t, u))
    (h2 : lengthMatch (pyStrip s2).data = some (t2, u))
    (hv : numValueChars t2 = 2 * numValueChars t) :
    parseFloat (some s2) d2 = 2 * parseFloat (some s) d := by
  rw [parseFloat_match s t u d h1, parseFloat_match s2 t2 u d2 h2, hv]
  exact applyUnit_double _ _ hu

/-- Witness for C4 at `v = 1.5`, `u = pt`: `"3pt"` parses to twice `"1.5pt"`,
whatever the (unused) defaults. -/
theorem C4_witness :
    lengthMatch (pyStrip "1.5pt").data = some ("1.5".data, "pt".data) ∧
    numValueChars "3".data = 2 * numValueChars "1.5".data ∧
    parseFloat (some "3pt") 7 = 2 * parseFloat (some "1.5pt") 5 :=
  ⟨by decide, by decide,
    C4_parse_length_linear "1.5pt" "3pt" "1.5".data "3".data "pt".data 5 7
      (by decide) (by decide) (by decide) (by decide)⟩

/-- C9: a numeric string with an unrecognized unit suffix does not fall back to
the default: the bare numeric value is returned unchanged, as for px. -/
theorem C9_unknown_unit_passthrough (s : String) (t u : List Char) (d : ℚ)
    (h : lengthMatch (pyStrip s).data = some (t, u))
    (hu : (⟨u.map Char.toLower⟩ : String) ∉ (["", "px", "pt", "cm", "mm", "in", "%"] : List String)) :
    parseFloat (some s) d = numValueChars t := by
  rw [parseFloat_match s t u d h]
  simp only [List.mem_cons, List.not_mem_nil, or_false, not_or] at hu
  obtain ⟨n1, n2, n3, n4, n5, n6, n7⟩ := hu
  simp [applyUnit, n1, n2, n3, n4, n5, n6, n7]

/-- Witness for C9 at `"5em"` with default `42`: the result is `5`, not `42`. -/
theorem C9_witness :
    lengthMatch (pyStrip "5em").data = some ("5".data, "em".data) ∧
    parseFloat (some "5em") 42 = 5 :=
  ⟨by decide,
    (C9_unknown_unit_passthrough "5em" "5".data "em".data 42 (by decide) (by decide)).trans
      (by decide)⟩

/-- C3: `parse_color` maps absent input, the empty string and the token `none`
(in any letter case) to absent, the named color `red` to `#ff0000`, the
functional form `rgb(255,0,0)` to `#ff0000`, and `#ABCDEF` to `#abcdef`. -/
theorem C3_parse_color_examples :
    parseColor none = none ∧ parseColor (some "") = none ∧
    parseColor (some "none") = none ∧ parseColor (some "NONE") = none ∧
    parseColor (some "None") = none ∧
    parseColor (some "red") = some "#ff0000" ∧
    parseColor (some "rgb(255,0,0)") = some "#ff0000" ∧
    parseColor (some "#ABCDEF") = some "#abcdef" := by
  decide

/-- C5: for each of fill, stroke, stroke-width and opacity, when an element
carries both a direct presentation attribute and a style-block declaration, the
resolved value comes from the direct attribute: the resolved style depends only
on the attribute values, whatever the style-block values are. -/
theorem C5_attribute_wins (e : XmlElement) (base : Option Style)
    (a1 a2 a3 a4 b1 b2 b3 b4 : String) (q : ℚ)
    (hf : assocGet e.attrs "fill" = some a1)
    (hfs : pyDictGet (mergeStyle e) "fill" = some b1)
    (hs : assocGet e.attrs "stroke" = some a2)
    (hss : pyDictGet (mergeStyle e) "stroke" = some b2)
    (hw : assocGet e.attrs "stroke-width" = some a3)
    (hws : pyDictGet (mergeStyle e) "stroke-width" = some b3)
    (ho : assocGet e.attrs "opacity" = some a4)
    (hos : pyDictGet (mergeStyle e) "opacity" = some b4)
    (hq : pyFloat a4 = some q) :
    extractStyle e base =
      .ok { fill_color := parseColor (some a1)
            stroke_color := parseColor (some a2)
            stroke_width := parseFloat (some a3) (match base with | some b => b.stroke_width | none => 1)
            opacity := q } := by
  simp only [extractStyle, elemGet, hf, hs, hw, ho, hq]

/-- Witness for C5: on `c5elem` (attribute `fill="#111111"`, style block
`fill:#222222`, and likewise for the other three properties) the resolved fill
is `#111111` and every resolved property comes from the attributes. -/
theorem C5_witness :
    pyDictGet (mergeStyle c5elem) "fill" = some "#222222" ∧
    extractStyle c5elem none =
      .ok { fill_color := some "#111111", stroke_color := some "#333333",
            stroke_width := 4, opacity := 9 / 10 } :=
  ⟨by decide,
    (C5_attribute_wins c5elem none "#111111" "#333333" "4" "0.9" "#222222" "#444444" "8" "0.1"
        (9 / 10) (by decide) (by decide) (by decide) (by decide) (by decide) (by decide)
        (by decide) (by decide) (by decide)).trans (by decide)⟩

/-- `updateLast` on a longer list keeps the head and recurses. -/
theorem updateLast_cons_cons (f : PathSegment → PathSegment) (a b : PathSegment)
    (l : List PathSegment) : updateLast f (a :: b :: l) = a :: updateLast f (b :: l) := rfl

/-- Membership in `updateLast f l`: the element was already in `l` or is the
image under `f` of an element of `l`. -/
theorem updateLast_mem (f : PathSegment → PathSegment) :
    ∀ (l : List PathSegment) (sg : PathSegment), sg ∈ updateLast f l →
      sg ∈ l ∨ ∃ sg0 ∈ l, sg = f sg0 := by
  intro l
  induction l with
  | nil => intro sg h; exact absurd h (by simp [updateLast])
  | cons a l ih =>
    intro sg h
    cases l with
    | nil =>
      simp only [updateLast, List.mem_singleton] at h
      exact Or.inr ⟨a, by simp, h⟩
    | cons b t =>
      rw [updateLast_cons_cons] at h
      rcases List.mem_cons.mp h with h | h
      · exact Or.inl (by simp [h])
      · rcases ih sg h with h | ⟨sg0, hm, he⟩
        · exact Or.inl (List.mem_cons_of_mem _ h)
        · exact Or.inr ⟨sg0, List.mem_cons_of_mem _ hm, he⟩

/-- `updateLast` keeps a nonempty list's head: the head survives unchanged, or
(for a singleton) becomes its image under `f`. -/
theorem updateLast_head (f : PathSegment → PathSegment) (sg : PathSegment)
    (more : List PathSegment) :
    ∃ sg' more', updateLast f (sg :: more) = sg' :: more' ∧ (sg' = sg ∨ sg' = f sg) := by
  cases more with
  | nil => exact ⟨f sg, [], rfl, Or.inr rfl⟩
  | cons b t => exact ⟨sg, updateLast f (b :: t), rfl, Or.inl rfl⟩

/-- `updateLast` maps the last element through `f`. -/
theorem updateLast_getLast (f : PathSegment → PathSegment) :
    ∀ (l : List PathSegment) (sg : PathSegment), l.getLast? = some sg →
      (updateLast f l).getLast? = some (f sg) := by
  intro l
  induction l with
  | nil => intro sg h; exact absurd h (by simp)
  | cons a l ih =>
    intro sg h
    cases l with
    | nil =>
      simp only [List.getLast?_singleton, Option.some.injEq] at h
      simp [updateLast, h]
    | cons b t =>
      rw [List.getLast?_cons_cons] at h
      rw [updateLast_cons_cons]
      have hb := ih sg h
      obtain ⟨sg', more', heq, _⟩ := updateLast_head f b t
      rw [heq] at hb
      rw [heq, List.getLast?_cons_cons]
      exact hb

/-- A data step's effect on the segment list is one of the four segment-list
operations, so any property stable under all four is preserved by `stepPoint`. -/
theorem stepPoint_pres (P : List PathSegment → Prop)
    (hApp : ∀ l p, P l → P (l ++ [{ points := [p], closed := false }]))
    (hSynth : ∀ q p, P [] → P [{ points := [q, p], closed := false }])
    (hLast : ∀ l p, P l → P (updateLast (fun sg => { sg with points := sg.points ++ [p] }) l))
    (st : PathState) (c : String) (p : ℚ × ℚ) (hP : P st.segments) :
    P (stepPoint st c p).segments := by
  unfold stepPoint
  by_cases hc : c = "M" ∨ c = "m"
  · simp only [if_pos hc]
    exact hApp _ _ hP
  · simp only [if_neg hc]
    by_cases hemp : st.segments.isEmpty
    · have hnil : st.segments = [] := by
        cases hst : st.segments with
        | nil => rfl
        | cons a l => rw [hst] at hemp; exact absurd hemp (by simp)
      simp only [hemp, if_true]
      exact hSynth _ _ (hnil ▸ hP)
    · simp only [hemp, if_false]
      exact hLast _ _ hP

/-- Master preservation lemma for the interpreter loop: a property of the
segment list stable under the four segment-list operations (pushing a fresh
one-point segment, synthesizing a two-point segment from the empty list,
appending a point to the last segment, closing the last segment) holds for the
loop's output whenever it holds for the starting state. -/
theorem goPath_preserves (P : List PathSegment → Prop)
    (hApp : ∀ l p, P l → P (l ++ [{ points := [p], closed := false }]))
    (hSynth : ∀ q p, P [] → P [{ points := [q, p], closed := false }])
    (hLast : ∀ l p, P l → P (updateLast (fun sg => { sg with points := sg.points ++ [p] }) l))
    (hClose : ∀ l, P l → P (updateLast (fun sg => { sg with closed := true }) l)) :
    ∀ (fuel : Nat) (ts : List String) (st : PathState) (segs : List PathSegment),
      P st.segments → goPathFuel fuel ts st = .ok segs → P segs := by
  intro fuel
  induction fuel with
  | zero =>
    intro ts st segs hP h
    cases ts with
    | nil =>
      cases (show Except.ok (ε := String) st.segments = .ok segs from h)
      exact hP
    | cons t rest =>
      cases (show Except.ok (ε := String) st.segments = .ok segs from h)
      exact hP
  | succ n ihn =>
    intro ts st segs hP h
    cases ts with
    | nil =>
      cases (show Except.ok (ε := String) st.segments = .ok segs from h)
      exact hP
    | cons t rest =>
      obtain ⟨sgs, cur, sp, cmd⟩ := st
      rw [goPathFuel] at h
      by_cases hl : isLetterTok t
      · rw [if_pos hl] at h
        exact ihn rest { segments := sgs, cursor := cur, start := sp, command := some t } segs hP h
      · rw [if_neg hl] at h
        cases cmd with
        | none =>
          simp only [] at h
          exact Except.noConfusion h
        | some c =>
          simp only [] at h
          have hstep := stepPoint_pres P hApp hSynth hLast
          by_cases h1 : c = "M" ∨ c = "L"
          · rw [if_pos h1] at h
            cases rest with
            | nil =>
              simp only [] at h
              cases h
              exact hstep _ c _ hP
            | cons t2 r2 =>
              simp only [] at h
              exact ihn r2 _ segs (hstep _ c _ hP) h
          · rw [if_neg h1] at h
            by_cases h2 : c = "m" ∨ c = "l"
            · rw [if_pos h2] at h
              cases rest with
              | nil =>
                simp only [] at h
                cases h
                exact hstep _ c _ hP
              | cons t2 r2 =>
                simp only [] at h
                exact ihn r2 _ segs (hstep _ c _ hP) h
            · rw [if_neg h2] at h
              by_cases h3 : c = "H"
              · rw [if_pos h3] at h
                exact ihn rest _ segs (hstep _ c _ hP) h
              · rw [if_neg h3] at h
                by_cases h4 : c = "h"
                · rw [if_pos h4] at h
                  exact ihn rest _ segs (hstep _ c _ hP) h
                · rw [if_neg h4] at h
                  by_cases h5 : c = "V"
                  · rw [if_pos h5] at h
                    exact ihn rest _ segs (hstep _ c _ hP) h
                  · rw [if_neg h5] at h
                    by_cases h6 : c = "v"
                    · rw [if_pos h6] at h
                      exact ihn rest _ segs (hstep _ c _ hP) h
                    · rw [if_neg h6] at h
                      by_cases h7 : c = "Z" ∨ c = "z"
                      · rw [if_pos h7] at h
                        refine ihn rest _ segs ?_ h
                        by_cases h8 : ¬ List.isEmpty sgs ∧ sp.isSome
                        · simpa only [if_pos h8] using hClose _ hP
                        · simpa only [if_neg h8] using hP
                      · rw [if_neg h7] at h
                        exact ihn rest _ segs hP h

/-- C2, behavior of the code at the claimed input: a trailing `Z` never reaches
the close branch of the interpreter (the branch only runs when a data token is
read while the active command is `Z`), so `parse_path("M0,0 L10,0 L10,10 Z")`
returns its single segment with `closed = false`, not `closed = true`. -/
theorem C2_trailing_z_not_closed :
    parsePath "M0,0 L10,0 L10,10 Z" =
      .ok [{ points := [(0, 0), (10, 0), (10, 10)], closed := false }] := by
  decide

/-- C8: every segment in the result of `parse_path` contains at least one
point; a segment with an empty point list is never produced. -/
theorem C8_segments_nonempty (d : String) (segs : List PathSegment)
    (h : parsePath d = .ok segs) : ∀ sg ∈ segs, sg.points ≠ [] := by
  rw [parsePath, goPath] at h
  refine goPath_preserves (fun l => ∀ sg ∈ l, sg.points ≠ []) ?_ ?_ ?_ ?_ _ _ _ segs ?_ h
  · intro l p hPl sg hm
    rcases List.mem_append.mp hm with hm | hm
    · exact hPl sg hm
    · simp only [List.mem_singleton] at hm
      subst hm
      simp
  · intro q p _ sg hm
    simp only [List.mem_singleton] at hm
    subst hm
    simp
  · intro l p hPl sg hm
    rcases updateLast_mem _ l sg hm with hm | ⟨sg0, _, he⟩
    · exact hPl sg hm
    · subst he
      simp
  · intro l hPl sg hm
    rcases updateLast_mem _ l sg hm with hm | ⟨sg0, hm0, he⟩
    · exact hPl sg hm
    · subst he
      simpa using hPl sg0 hm0
  · intro sg hm
    exact absurd hm (by simp)

/-- Witness for C8: the first segment of `parse_path("M0,0 L10,0")` has a
nonempty point list. -/
theorem C8_witness : (PathSegment.mk [((0 : ℚ), (0 : ℚ)), (10, 0)] false).points ≠ [] :=
  C8_segments_nonempty "M0,0 L10,0" [{ points := [(0, 0), (10, 0)], closed := false }]
    (by decide) _ (by decide)

/-- Once the head segment of the state has its first two points fixed, the rest
of the loop keeps that head (with those two points) in place. -/
theorem goPath_head_two (pts0 : List (ℚ × ℚ)) (fuel : Nat) (ts : List String)
    (st : PathState) (segs : List PathSegment)
    (hseg : ∃ sg more, st.segments = sg :: more ∧ sg.points.take 2 = pts0 ∧ 2 ≤ sg.points.length)
    (h : goPathFuel fuel ts st = .ok segs) :
    ∃ sg more, segs = sg :: more ∧ sg.points.take 2 = pts0 ∧ 2 ≤ sg.points.length := by
  refine goPath_preserves
    (fun l => ∃ sg more, l = sg :: more ∧ sg.points.take 2 = pts0 ∧ 2 ≤ sg.points.length)
    ?_ ?_ ?_ ?_ fuel ts st segs hseg h
  · rintro l p ⟨sg, more, rfl, h2, hlen⟩
    exact ⟨sg, more ++ [{ points := [p], closed := false }], by simp, h2, hlen⟩
  · rintro q p ⟨sg, more, hemp, _, _⟩
    exact absurd hemp (by simp)
  · rintro l p ⟨sg, more, rfl, h2, hlen⟩
    cases more with
    | nil =>
      refine ⟨{ sg with points := sg.points ++ [p] }, [], rfl, ?_, ?_⟩
      · simpa [List.take_append_of_le_length hlen] using h2
      · simp
        omega
    | cons b tl =>
      rw [updateLast_cons_cons]
      exact ⟨sg, _, rfl, h2, hlen⟩
  · rintro l ⟨sg, more, rfl, h2, hlen⟩
    cases more with
    | nil => exact ⟨{ sg with closed := true }, [], rfl, h2, hlen⟩
    | cons b tl =>
      rw [updateLast_cons_cons]
      exact ⟨sg, _, rfl, h2, hlen⟩

/-- C6: a coordinate command (`L`, `H`, `V` or a relative form) arriving while
no segment exists yet (so before any `M`) makes the interpreter synthesize a
segment whose points start with the cursor `(0,0)` followed by the new point,
so the first segment always has at least two points. -/
theorem C6_synthesized_segment (t : String) (ts : List String) (c : String)
    (hc : c ∈ (["L", "l", "H", "h", "V", "v"] : List String))
    (ht : isLetterTok t = false) (segs : List PathSegment)
    (h : goPath (t :: ts) { segments := [], cursor := (0, 0), start := none, command := some c } =
      .ok segs) :
    ∃ sg more p, segs = sg :: more ∧ sg.points.take 2 = [((0 : ℚ), (0 : ℚ)), p] ∧
      2 ≤ sg.points.length := by
  rw [goPath, List.length_cons, goPathFuel, if_neg (by simp [ht])] at h
  simp only [] at h
  have hstep : ∀ (c' : String) (p : ℚ × ℚ), ¬ (c' = "M" ∨ c' = "m") →
      (stepPoint { segments := [], cursor := (0, 0), start := none, command := some c } c' p).segments
        = [{ points := [((0 : ℚ), (0 : ℚ)), p], closed := false }] := by
    intro c' p hc'
    simp [stepPoint, if_neg hc']
  simp only [List.mem_cons, List.not_mem_nil, or_false] at hc
  rcases hc with rfl | rfl | rfl | rfl | rfl | rfl
  · rw [if_pos (Or.inr rfl)] at h
    cases ts with
    | nil =>
      simp only [] at h
      cases h
      rw [hstep "L" _ (by decide)]
      exact ⟨_, [], _, rfl, rfl, by simp⟩
    | cons t2 r2 =>
      simp only [] at h
      obtain ⟨sg, more, hs, h2, hlen⟩ :=
        goPath_head_two [((0 : ℚ), (0 : ℚ)), (parseFloat (some t) 0, parseFloat (some t2) 0)]
          _ _ _ _ ⟨_, [], hstep "L" _ (by decide), rfl, by simp⟩ h
      exact ⟨sg, more, _, hs, h2, hlen⟩
  · rw [if_neg (by decide), if_pos (Or.inr rfl)] at h
    cases ts with
    | nil =>
      simp only [] at h
      cases h
      rw [hstep "l" _ (by decide)]
      exact ⟨_, [], _, rfl, rfl, by simp⟩
    | cons t2 r2 =>
      simp only [] at h
      obtain ⟨sg, more, hs, h2, hlen⟩ :=
        goPath_head_two
          [((0 : ℚ), (0 : ℚ)), ((0 : ℚ) + parseFloat (some t) 0, (0 : ℚ) + parseFloat (some t2) 0)]
          _ _ _ _ ⟨_, [], hstep "l" _ (by decide), rfl, by simp⟩ h
      exact ⟨sg, more, _, hs, h2, hlen⟩
  · rw [if_neg (by decide), if_neg (by decide), if_pos rfl] at h
    obtain ⟨sg, more, hs, h2, hlen⟩ :=
      goPath_head_two [((0 : ℚ), (0 : ℚ)), (parseFloat (some t) 0, (0 : ℚ))]
        _ _ _ _ ⟨_, [], hstep "H" _ (by decide), rfl, by simp⟩ h
    exact ⟨sg, more, _, hs, h2, hlen⟩
  · rw [if_neg (by decide), if_neg (by decide), if_neg (by decide), if_pos rfl] at h
    obtain ⟨sg, more, hs, h2, hlen⟩ :=
      goPath_head_two [((0 : ℚ), (0 : ℚ)), ((0 : ℚ) + parseFloat (some t) 0, (0 : ℚ))]
        _ _ _ _ ⟨_, [], hstep "h" _ (by decide), rfl, by simp⟩ h
    exact ⟨sg, more, _, hs, h2, hlen⟩
  · rw [if_neg (by decide), if_neg (by decide), if_neg (by decide), if_neg (by decide),
      if_pos rfl] at h
    obtain ⟨sg, more, hs, h2, hlen⟩ :=
      goPath_head_two [((0 : ℚ), (0 : ℚ)), ((0 : ℚ), parseFloat (some t) 0)]
        _ _ _ _ ⟨_, [], hstep "V" _ (by decide), rfl, by simp⟩ h
    exact ⟨sg, more, _, hs, h2, hlen⟩
  · rw [if_neg (by decide), if_neg (by decide), if_neg (by decide), if_neg (by decide),
      if_neg (by decide), if_pos rfl] at h
    obtain ⟨sg, more, hs, h2, hlen⟩ :=
      goPath_head_two [((0 : ℚ), (0 : ℚ)), ((0 : ℚ), (0 : ℚ) + parseFloat (some t) 0)]
        _ _ _ _ ⟨_, [], hstep "v" _ (by decide), rfl, by simp⟩ h
    exact ⟨sg, more, _, hs, h2, hlen⟩

/-- Witness for C6 at `d` tokens `["10", "10"]` under active command `L` (the
token stream of `"L10,10"` after its letter): the synthesized first segment
starts at the origin and has two points. -/
theorem C6_witness :
    ∃ sg more p, [PathSegment.mk [((0 : ℚ), (0 : ℚ)), (10, 10)] false] = sg :: more ∧
      sg.points.take 2 = [((0 : ℚ), (0 : ℚ)), p] ∧ 2 ≤ sg.points.length :=
  C6_synthesized_segment "10" ["10"] "L" (by decide) (by decide) _ (by decide)

/-- A data step always leaves the consumed point as the last point of the last
segment. -/
theorem stepPoint_lastPoint (st : PathState) (c : String) (p : ℚ × ℚ) :
    lastPoint (stepPoint st c p).segments = some p := by
  unfold stepPoint lastPoint
  by_cases hc : c = "M" ∨ c = "m"
  · simp only [if_pos hc]
    rw [List.getLast?_concat]
    simp
  · simp only [if_neg hc]
    cases hsgs : st.segments with
    | nil => simp
    | cons a l =>
      simp only [List.isEmpty_cons, Bool.false_eq_true, if_false]
      cases hsg : (a :: l).getLast? with
      | none => simp [List.getLast?_eq_none_iff] at hsg
      | some sg =>
        rw [updateLast_getLast _ _ _ hsg]
        simp

/-- C10: a final coordinate token with no paired `y` does not make the
interpreter fail: under `M`/`L` the point gets `y = 0`, and under `m`/`l` the
point keeps the cursor's `y`. -/
theorem C10_missing_y_defaults (st : PathState) (t : String) (ht : isLetterTok t = false) :
    ((st.command = some "M" ∨ st.command = some "L") →
      ∃ segs, goPath [t] st = .ok segs ∧
        lastPoint segs = some (parseFloat (some t) 0, 0)) ∧
    ((st.command = some "m" ∨ st.command = some "l") →
      ∃ segs, goPath [t] st = .ok segs ∧
        lastPoint segs = some (st.cursor.1 + parseFloat (some t) 0, st.cursor.2)) := by
  obtain ⟨sgs, cur, sp, cmd⟩ := st
  constructor
  · intro hc
    have hcmd : cmd = some "M" ∨ cmd = some "L" := hc
    have key : ∀ c : String, (c = "M" ∨ c = "L") → ∃ segs,
        goPath [t] { segments := sgs, cursor := cur, start := sp, command := some c } = .ok segs ∧
        lastPoint segs = some (parseFloat (some t) 0, 0) := by
      intro c hcc
      refine ⟨_, ?_, stepPoint_lastPoint
        { segments := sgs, cursor := cur, start := sp, command := some c } c
        (parseFloat (some t) 0, 0)⟩
      show goPathFuel (0 + 1) [t] _ = _
      rw [goPathFuel, if_neg (by simp [ht])]
      simp only []
      rw [if_pos hcc]
    rcases hcmd with hcmd | hcmd <;> subst hcmd
    · exact key "M" (Or.inl rfl)
    · exact key "L" (Or.inr rfl)
  · intro hc
    have hcmd : cmd = some "m" ∨ cmd = some "l" := hc
    have key : ∀ c : String, (c = "m" ∨ c = "l") → ∃ segs,
        goPath [t] { segments := sgs, cursor := cur, start := sp, command := some c } = .ok segs ∧
        lastPoint segs = some (cur.1 + parseFloat (some t) 0, cur.2) := by
      intro c hcc
      refine ⟨_, ?_, stepPoint_lastPoint
        { segments := sgs, cursor := cur, start := sp, command := some c } c
        (cur.1 + parseFloat (some t) 0, cur.2)⟩
      show goPathFuel (0 + 1) [t] _ = _
      rw [goPathFuel, if_neg (by simp [ht])]
      simp only []
      rcases hcc with rfl | rfl
      · rw [if_neg (by decide), if_pos (Or.inl rfl)]
      · rw [if_neg (by decide), if_pos (Or.inr rfl)]
    rcases hcmd with hcmd | hcmd <;> subst hcmd
    · exact key "m" (Or.inl rfl)
    · exact key "l" (Or.inr rfl)

/-- Witness for C10: token `"7"` as the final token, once under `M` from cursor
`(3,4)` (point `(7,0)`), once under `l` from cursor `(3,4)` (point `(10,4)`). -/
theorem C10_witness :
    (∃ segs, goPath ["7"]
        { segments := [], cursor := (3, 4), start := none, command := some "M" } = .ok segs ∧
      lastPoint segs = some ((7 : ℚ), 0)) ∧
    (∃ segs, goPath ["7"]
        { segments := [{ points := [((0 : ℚ), (0 : ℚ))], closed := false }], cursor := (3, 4),
          start := some (0, 0), command := some "l" } = .ok segs ∧
      lastPoint segs = some ((10 : ℚ), 4)) := by
  constructor
  · obtain ⟨segs, h1, h2⟩ :=
      (C10_missing_y_defaults
        { segments := [], cursor := (3, 4), start := none, command := some "M" } "7"
        (by decide)).1 (Or.inl rfl)
    exact ⟨segs, h1, by rw [h2]; decide⟩
  · obtain ⟨segs, h1, h2⟩ :=
      (C10_missing_y_defaults
        { segments := [{ points := [((0 : ℚ), (0 : ℚ))], closed := false }], cursor := (3, 4),
          start := some (0, 0), command := some "l" } "7"
        (by decide)).2 (Or.inr rfl)
    exact ⟨segs, h1, by rw [h2]; decide⟩

/-- `parseFloat` depends on its default only by returning it: for any two
defaults the results agree, or each call returns its own default. -/
theorem parseFloat_default (v : Option String) (d1 d2 : ℚ) :
    parseFloat v d1 = parseFloat v d2 ∨ (parseFloat v d1 = d1 ∧ parseFloat v d2 = d2) := by
  cases v with
  | none => exact Or.inr ⟨rfl, rfl⟩
  | some s =>
    by_cases he : pyStrip s = ""
    · exact Or.inr ⟨by simp [parseFloat, he], by simp [parseFloat, he]⟩
    · cases hm : lengthMatch (pyStrip s).data with
      | some m => exact Or.inl (by simp [parseFloat, he, hm])
      | none =>
        cases hf : pyFloat (pyStrip s) with
        | some q => exact Or.inl (by simp [parseFloat, he, hm, hf])
        | none =>
          exact Or.inr ⟨by simp [parseFloat, he, hm, hf], by simp [parseFloat, he, hm, hf]⟩

/-- The style resolver fails only on the opacity conversion: an `extractStyle`
error exhibits an opacity raw value that the `float()` builtin rejects. -/
theorem extractStyle_error (e : XmlElement) (b : Option Style) (msg : String)
    (h : extractStyle e b = .error msg) :
    ∃ o, elemGet e "opacity" (pyDictGet (mergeStyle e) "opacity") = some o ∧ pyFloat o = none := by
  unfold extractStyle at h
  cases ho : elemGet e "opacity" (pyDictGet (mergeStyle e) "opacity") with
  | none =>
    simp only [ho] at h
    exact Except.noConfusion h
  | some o =>
    cases hf : pyFloat o with
    | some q =>
      simp only [ho, hf] at h
      exact Except.noConfusion h
    | none => exact ⟨o, rfl, hf⟩

/-- An extraction failure is a path-interpreter failure on the element's `d`
data or an opacity-conversion failure; no other extractor operation fails. -/
theorem parseShape_error (tag : String) (e : XmlElement) (msg : String)
    (h : parseShape tag e = some (.error msg)) :
    (tag = "path" ∧ ∃ m, parsePath (elemGetD e "d" "") = .error m) ∨
    (∃ o, elemGet e "opacity" (pyDictGet (mergeStyle e) "opacity") = some o ∧
      pyFloat o = none) := by
  unfold parseShape at h
  split_ifs at h with h1 h2 h3 h4 h5 h6 h7 h8
  · rw [Option.some_inj] at h
    unfold parseRect at h
    cases hs : extractStyle e none with
    | error m => rw [hs] at h; exact Or.inr (extractStyle_error e none m hs)
    | ok st => rw [hs] at h; simp at h
  · rw [Option.some_inj] at h
    unfold parseCircle at h
    cases hs : extractStyle e none with
    | error m => rw [hs] at h; exact Or.inr (extractStyle_error e none m hs)
    | ok st => rw [hs] at h; simp at h
  · rw [Option.some_inj] at h
    unfold parseEllipse at h
    cases hs : extractStyle e none with
    | error m => rw [hs] at h; exact Or.inr (extractStyle_error e none m hs)
    | ok st => rw [hs] at h; simp at h
  · rw [Option.some_inj] at h
    unfold parseLine at h
    cases hs : extractStyle e none with
    | error m => rw [hs] at h; exact Or.inr (extractStyle_error e none m hs)
    | ok st => rw [hs] at h; simp at h
  · rw [Option.some_inj] at h
    unfold parsePolylineShape at h
    cases hs : extractStyle e none with
    | error m => rw [hs] at h; exact Or.inr (extractStyle_error e none m hs)
    | ok st => rw [hs] at h; simp at h
  · rw [Option.some_inj] at h
    unfold parsePolylineShape at h
    cases hs : extractStyle e none with
    | error m => rw [hs] at h; exact Or.inr (extractStyle_error e none m hs)
    | ok st => rw [hs] at h; simp at h
  · rw [Option.some_inj] at h
    unfold parsePathShape at h
    cases hs : extractStyle e none with
    | error m => rw [hs] at h; exact Or.inr (extractStyle_error e none m hs)
    | ok st =>
      rw [hs] at h
      cases hd : parsePath (elemGetD e "d" "") with
      | error m => exact Or.inl ⟨h7, m, rfl⟩
      | ok segs => rw [hd] at h; simp at h
  · rw [Option.some_inj] at h
    unfold parseTextShape at h
    cases hs : extractTextStyle e with
    | error m =>
      rw [hs] at h
      unfold extractTextStyle at hs
      cases hs2 : extractStyle e (some { stroke_width := 1, opacity := 1 }) with
      | error m2 => exact Or.inr (extractStyle_error e _ m2 hs2)
      | ok b => rw [hs2] at hs; simp at hs
    | ok ts => rw [hs] at h; simp at h

/-- Every error of the document walk is a single wrapped message naming the
offending tag. -/
theorem walkShapes_error (es : List XmlElement) (msg : String)
    (h : walkShapes es = .error msg) :
    ∃ tag m, msg = "Unable to parse element '" ++ tag ++ "': " ++ m := by
  induction es with
  | nil => exact absurd h (by simp [walkShapes])
  | cons e rest ih =>
    rw [walkShapes] at h
    cases hp : parseShape (localTag e.tag) e with
    | none =>
      rw [hp] at h
      exact ih h
    | some r =>
      rw [hp] at h
      cases r with
      | error m =>
        simp only [] at h
        exact ⟨localTag e.tag, m, (Except.error.inj h).symm⟩
      | ok s =>
        simp only [] at h
        cases hw : walkShapes rest with
        | error m =>
          rw [hw] at h
          cases (show Except.error (α := List Shape) m = .error msg from h)
          exact ih hw
        | ok l =>
          rw [hw] at h
          exact Except.noConfusion h

/-- A `parseSvg` failure is a failure of its document walk. -/
theorem parseSvg_error (root : XmlElement) (msg : String)
    (h : parseSvg root = .error msg) : walkShapes (iterElems root) = .error msg := by
  unfold parseSvg at h
  cases hw : walkShapes (iterElems root) with
  | error m =>
    rw [hw] at h
    cases (show Except.error (α := List Shape) m = .error msg from by simpa using h)
    rfl
  | ok l =>
    rw [hw] at h
    simp at h

/-- C1 (amended): the length and color normalizers never fail — the length
parser returns a value independent of the default or the supplied default, and
the color parser always returns a paint or absent; an extraction failure is a
path-interpreter failure or an opacity `float()` conversion failure; and every
document-level failure is one wrapped error naming the offending tag. -/
theorem C1_failure_policy :
    (∀ (v : Option String) (d1 d2 : ℚ),
      parseFloat v d1 = parseFloat v d2 ∨ (parseFloat v d1 = d1 ∧ parseFloat v d2 = d2)) ∧
    (∀ v : Option String, parseColor v = none ∨ ∃ c, parseColor v = some c) ∧
    (∀ (tag : String) (e : XmlElement) (msg : String), parseShape tag e = some (.error msg) →
      (tag = "path" ∧ ∃ m, parsePath (elemGetD e "d" "") = .error m) ∨
      (∃ o, elemGet e "opacity" (pyDictGet (mergeStyle e) "opacity") = some o ∧
        pyFloat o = none)) ∧
    (∀ (root : XmlElement) (msg : String), parseSvg root = .error msg →
      ∃ tag m, msg = "Unable to parse element '" ++ tag ++ "': " ++ m) :=
  ⟨parseFloat_default,
   fun v => by
    cases hc : parseColor v with
    | none => exact Or.inl rfl
    | some c => exact Or.inr ⟨c, rfl⟩,
   parseShape_error,
   fun root msg h => walkShapes_error _ _ (parseSvg_error _ _ h)⟩

/-- Witness for C1: the wrapped error of the document with one bad path names
the `path` tag, and the failing rect extraction (`opacity="50%"`) is an opacity
conversion failure. -/
theorem C1_failure_policy_witness :
    (∃ tag m, ("Unable to parse element 'path': Path data missing command" : String) =
      "Unable to parse element '" ++ tag ++ "': " ++ m) ∧
    ((("rect" : String) = "path" ∧ ∃ m, parsePath (elemGetD c1rect "d" "") = .error m) ∨
      (∃ o, elemGet c1rect "opacity" (pyDictGet (mergeStyle c1rect)  "opacity") = some o ∧
        pyFloat o = none)) :=
  ⟨C1_failure_policy.2.2.2 c1pathDoc
      "Unable to parse element 'path': Path data missing command" (by decide),
   C1_failure_policy.2.2.1 "rect" c1rect
      "could not convert string to float: '50%'" (by decide)⟩

/-- C1, counterexample to the claim as stated: it is not true that only the
path interpreter can make an extractor fail — the rect extractor fails on
`c1rect` (`opacity="50%"`), an element that is not a path. -/
theorem C1_only_path_fails_refuted :
    ¬ (∀ (tag : String) (e : XmlElement) (msg : String),
        parseShape tag e = some (.error msg) → tag = "path") := by
  intro hall
  have hx : parseShape "rect" c1rect =
      some (.error "could not convert string to float: '50%'") := by decide
  exact absurd (hall "rect" c1rect _ hx) (by decide)

/-- The dispatch table returns an extractor exactly for the recognized tags. -/
theorem parseShape_none_iff (tag : String) (e : XmlElement) :
    parseShape tag e = none ↔ recognizedTag tag = false := by
  unfold parseShape recognizedTag
  split_ifs with h1 h2 h3 h4 h5 h6 h7 h8 <;> simp_all

/-- A successful extraction produces a shape whose kind answers to the
dispatched tag. -/
theorem parseShape_tag (tag : String) (e : XmlElement) (s : Shape)
    (h : parseShape tag e = some (.ok s)) : shapeTag s = tag := by
  unfold parseShape at h
  split_ifs at h with h1 h2 h3 h4 h5 h6 h7 h8
  · rw [Option.some_inj] at h
    unfold parseRect at h
    cases hs : extractStyle e none with
    | error m => rw [hs] at h; exact Except.noConfusion h
    | ok st =>
      rw [hs] at h
      cases (Except.ok.inj h)
      rw [h1]
      rfl
  · rw [Option.some_inj] at h
    unfold parseCircle at h
    cases hs : extractStyle e none with
    | error m => rw [hs] at h; exact Except.noConfusion h
    | ok st =>
      rw [hs] at h
      cases (Except.ok.inj h)
      rw [h2]
      rfl
  · rw [Option.some_inj] at h
    unfold parseEllipse at h
    cases hs : extractStyle e none with
    | error m => rw [hs] at h; exact Except.noConfusion h
    | ok st =>
      rw [hs] at h
      cases (Except.ok.inj h)
      rw [h3]
      rfl
  · rw [Option.some_inj] at h
    unfold parseLine at h
    cases hs : extractStyle e none with
    | error m => rw [hs] at h; exact Except.noConfusion h
    | ok st =>
      rw [hs] at h
      cases (Except.ok.inj h)
      rw [h4]
      rfl
  · rw [Option.some_inj] at h
    unfold parsePolylineShape at h
    cases hs : extractStyle e none with
    | error m => rw [hs] at h; exact Except.noConfusion h
    | ok st =>
      rw [hs] at h
      cases (Except.ok.inj h)
      rw [h5]
      rfl
  · rw [Option.some_inj] at h
    unfold parsePolylineShape at h
    cases hs : extractStyle e none with
    | error m => rw [hs] at h; exact Except.noConfusion h
    | ok st =>
      rw [hs] at h
      cases (Except.ok.inj h)
      rw [h6]
      rfl
  · rw [Option.some_inj] at h
    unfold parsePathShape at h
    cases hs : extractStyle e none with
    | error m => rw [hs] at h; exact Except.noConfusion h
    | ok st =>
      rw [hs] at h
      cases hd : parsePath (elemGetD e "d" "") with
      | error m => rw [hd] at h; exact Except.noConfusion h
      | ok segs =>
        rw [hd] at h
        cases (Except.ok.inj h)
        rw [h7]
        rfl
  · rw [Option.some_inj] at h
    unfold parseTextShape at h
    cases hs : extractTextStyle e with
    | error m => rw [hs] at h; exact Except.noConfusion h
    | ok ts =>
      rw [hs] at h
      cases (Except.ok.inj h)
      rw [h8]
      rfl

/-- The walk emits exactly one shape per recognized element, in traversal
order, and each shape answers to its element's tag. -/
theorem walkShapes_tags (es : List XmlElement) (shapes : List Shape)
    (h : walkShapes es = .ok shapes) :
    shapes.map shapeTag = ((es.map (fun e => localTag e.tag)).filter recognizedTag) := by
  induction es generalizing shapes with
  | nil =>
    cases (show Except.ok (ε := String) ([] : List Shape) = .ok shapes from h)
    rfl
  | cons e rest ih =>
    rw [walkShapes] at h
    cases hp : parseShape (localTag e.tag) e with
    | none =>
      rw [hp] at h
      have hrec : recognizedTag (localTag e.tag) = false := (parseShape_none_iff _ _).mp hp
      simp only [List.map_cons, List.filter_cons, hrec]
      exact ih shapes h
    | some r =>
      rw [hp] at h
      have hrec : recognizedTag (localTag e.tag) = true := by
        cases hr : recognizedTag (localTag e.tag) with
        | false => rw [(parseShape_none_iff _ _).mpr hr] at hp; exact Option.noConfusion hp
        | true => rfl
      cases r with
      | error m =>
        simp only [] at h
        exact Except.noConfusion h
      | ok s =>
        simp only [] at h
        cases hw : walkShapes rest with
        | error m =>
          rw [hw] at h
          exact Except.noConfusion h
        | ok l =>
          rw [hw] at h
          cases (show Except.ok (ε := String) (s :: l) = .ok shapes from h)
          simp only [List.map_cons, List.filter_cons, hrec, if_true]
          rw [parseShape_tag _ _ _ hp]
          exact congrArg (List.cons _) (ih l hw)

/-- C7: `parse_svg` appends one shape per recognized element in depth-first
document order: the shapes' kinds, in order, are exactly the recognized tags of
the document-order traversal. -/
theorem C7_document_order (root : XmlElement) (doc : SvgDocument)
    (h : parseSvg root = .ok doc) :
    doc.shapes.map shapeTag =
      ((iterElems root).map (fun e => localTag e.tag)).filter recognizedTag := by
  unfold parseSvg at h
  cases hw : walkShapes (iterElems root) with
  | error m =>
    rw [hw] at h
    simp at h
  | ok shapes =>
    rw [hw] at h
    cases (show Except.ok (ε := String)
      { width :=
          match assocGet root.attrs "width" with
          | some w => if w = "" then none else some (parseFloat (some w) 0)
          | none => none
        height :=
          match assocGet root.attrs "height" with
          | some hv => if hv = "" then none else some (parseFloat (some hv) 0)
          | none => none
        shapes := shapes } = .ok doc from by simpa using h)
    exact walkShapes_tags _ _ hw

/-- Witness for C7: the document with shape elements in order
[rect, circle, path] parses to a document whose shapes answer, in order, to
["rect", "circle", "path"]. -/
theorem C7_witness :
    parseSvg c7doc = .ok c7parsed ∧
    c7parsed.shapes.map shapeTag = ["rect", "circle", "path"] :=
  ⟨by decide, (C7_document_order c7doc c7parsed (by decide)).trans (by decide)⟩

end SvgToPptx

